import Mathlib

-- Shallow embedding of the s-rag identity/mapping layer, the lease-acquisition
-- loop, the Voyager vector-index manager and the BM25 lexical-index manager,
-- translated from src/utils/{mapping,blobs,indexes}. Python dicts are modelled
-- as insertion-ordered association lists, Python sets as Finset, machine floats
-- as real numbers, and raising methods as Except-valued functions.

-- Insertion-ordered dictionary model (Python dict semantics: assignment to an
-- existing key keeps its position, assignment to a new key appends; `del`
-- removes the entry and keeps the order of the others).

def dictGet {β : Type} (d : List (String × β)) (k : String) : Option β :=
  (d.find? (fun p => p.1 == k)).map (fun p => p.2)

def dictContains {β : Type} (d : List (String × β)) (k : String) : Bool :=
  (dictGet d k).isSome

def dictInsert {β : Type} (d : List (String × β)) (k : String) (v : β) :
    List (String × β) :=
  if dictContains d k then d.map (fun p => if p.1 == k then (k, v) else p)
  else d ++ [(k, v)]

def dictRemove {β : Type} (d : List (String × β)) (k : String) :
    List (String × β) :=
  d.filter (fun p => p.1 != k)

-- ChunkIndexMapping (src/utils/mapping/chunk_index_mapping.py). Every public
-- method reloads the persisted JSON blob before mutating and saves afterwards,
-- so the persisted content is the authoritative state and each method is a
-- function on it. `id_map` maps a chunk id to the dict backend-name -> backend id.

structure CIMState where
  id_counter : ℕ
  id_map : List (String × List (String × ℕ))
deriving DecidableEq

-- get_new_id: reload, return str(counter), increment, save.
def cimGetNewId (s : CIMState) : CIMState × String :=
  (⟨s.id_counter + 1, s.id_map⟩, toString s.id_counter)

def cimAddMapping (s : CIMState) (chunk_id : String) (index_ids : List (String × ℕ)) :
    CIMState :=
  ⟨s.id_counter, dictInsert s.id_map chunk_id index_ids⟩

def cimRemoveMapping (s : CIMState) (chunk_id : String) : CIMState :=
  if dictContains s.id_map chunk_id then ⟨s.id_counter, dictRemove s.id_map chunk_id⟩
  else s

def cimGetIndexIds (s : CIMState) (chunk_id : String) : Option (List (String × ℕ)) :=
  dictGet s.id_map chunk_id

-- A client-visible operation on the persisted allocator state.  `reload`
-- models a fresh load of the persisted counter (constructor / process restart),
-- which is the identity on the persisted content.
inductive CIMOp where
  | getNewId : CIMOp
  | addMapping : String → List (String × ℕ) → CIMOp
  | removeMapping : String → CIMOp
  | reload : CIMOp

def cimStep (s : CIMState) : CIMOp → CIMState
  | .getNewId => (cimGetNewId s).1
  | .addMapping cid ids => cimAddMapping s cid ids
  | .removeMapping cid => cimRemoveMapping s cid
  | .reload => s

-- The counter values issued by this operation (the string returned by
-- get_new_id is the decimal encoding of the issued value).
def cimIssued (s : CIMState) : CIMOp → List ℕ
  | .getNewId => [s.id_counter]
  | _ => []

def cimRun (s : CIMState) : List CIMOp → CIMState × List ℕ
  | [] => (s, [])
  | op :: ops =>
    let rest := cimRun (cimStep s op) ops
    (rest.1, cimIssued s op ++ rest.2)

-- ChunkBlobMapping (src/utils/mapping/chunk_blob_mapping.py).  The forward map
-- sends a chunk id to (container, blob); the reverse map is keyed by the string
-- container ++ ":" ++ blob and is rebuilt from the forward map by
-- __update_reverse_mapping on every load and mutation.

structure CBMState where
  mapping : List (String × String × String)
  reverse : List (String × List String)
deriving DecidableEq

def revKey (container blob : String) : String := container ++ ":" ++ blob

def updateReverseMapping (mapping : List (String × String × String)) :
    List (String × List String) :=
  mapping.foldl
    (fun acc p =>
      let key := revKey p.2.1 p.2.2
      if dictContains acc key then
        acc.map (fun q => if q.1 == key then (q.1, q.2 ++ [p.1]) else q)
      else acc ++ [(key, [p.1])])
    []

def cbmLoad (persisted : List (String × String × String)) : CBMState :=
  ⟨persisted, updateReverseMapping persisted⟩

def cbmAddMapping (s : CBMState) (chunk_id container blob : String) : CBMState :=
  let m := dictInsert s.mapping chunk_id (container, blob)
  ⟨m, updateReverseMapping m⟩

def cbmRemoveMapping (s : CBMState) (chunk_id : String) : CBMState :=
  if dictContains s.mapping chunk_id then
    let m := dictRemove s.mapping chunk_id
    ⟨m, updateReverseMapping m⟩
  else s

def cbmGetChunkIdsByBlob (s : CBMState) (container blob : String) : List String :=
  (dictGet s.reverse (revKey container blob)).getD []

-- The invariant claimed for the reverse index.
def cbmInv (s : CBMState) : Prop := s.reverse = updateReverseMapping s.mapping

-- ChunkMappingManager (src/utils/mapping/chunk_mapping_manager.py).  A searcher
-- backend is abstracted by the observable behaviour the manager uses: the ids
-- its add returns for a text, and whether its remove raises.  Lease
-- acquisition/release around the mutations is modelled separately (see the
-- lease loop below); here the mutations themselves are modelled.

structure SearcherModel where
  name : String
  addIds : String → List ℕ
  removeOutcome : ℕ → Except String Unit

structure ManagerState where
  cim : CIMState
  cbm : CBMState
  searchers : List SearcherModel

-- One iteration of the loop body of ChunkMappingManager.add: allocate a chunk
-- id, call every backend's add taking `add(text)[0]` (IndexError when the
-- backend returns no ids propagates: add errors are NOT swallowed), then write
-- both mapping entries.
def managerAddChunk (st : ManagerState) (container blob text : String) :
    Except String (ManagerState × String) :=
  let step := cimGetNewId st.cim
  let cid := step.2
  match st.searchers.mapM
      (fun s =>
        match s.addIds text with
        | [] => Except.error "list index out of range"
        | i :: _ => Except.ok (s.name, i)) with
  | .error e => .error e
  | .ok index_ids =>
    .ok (⟨cimAddMapping step.1 cid index_ids,
          cbmAddMapping st.cbm cid container blob, st.searchers⟩, cid)

def managerAdd (st : ManagerState) (container blob : String) (texts : List String) :
    Except String (ManagerState × List (String × String)) :=
  texts.foldlM
    (fun acc text => do
      let r ← managerAddChunk acc.1 container blob text
      pure (r.1, acc.2 ++ [(r.2, text)]))
    (st, [])

-- ChunkMappingManager.remove: look up the backend ids; for each registered
-- backend present in the entry, attempt remove and only log a failure (the
-- returned list collects the logged warnings); then always remove the entry
-- from both mapping stores.  No branch raises, which is why the function is
-- total.
def managerRemove (st : ManagerState) (chunk_id : String) :
    ManagerState × List String :=
  let index_ids := cimGetIndexIds st.cim chunk_id
  let warnings :=
    match index_ids with
    | some ids =>
      if ids ≠ [] then
        st.searchers.foldl
          (fun ws s =>
            match dictGet ids s.name with
            | some backend_id =>
              match s.removeOutcome backend_id with
              | .ok _ => ws
              | .error e =>
                ws ++ ["Error occurred while removing chunk ID " ++ chunk_id ++
                       " from index " ++ s.name ++ ": " ++ e]
            | none => ws)
          []
      else ["Chunk with ID: " ++ chunk_id ++ " not found"]
    | none => ["Chunk with ID: " ++ chunk_id ++ " not found"]
  (⟨cimRemoveMapping st.cim chunk_id, cbmRemoveMapping st.cbm chunk_id,
    st.searchers⟩, warnings)

-- BlobContainerManager.acquire_lease (src/utils/blobs/blob_container_manager.py).
-- The environment is abstracted by a probe: whether the resource reports state
-- "leased" at the n-th attempt, and the lease id BlobLeaseManager.acquire_lease
-- returns (none models a falsy client).  The loop `for attempt in
-- range(max_retries)` is written with the remaining iteration count as fuel;
-- the result records the Except outcome, the number of attempts performed and
-- the list of back-off sleeps (in time units) in order.

structure LeaseProbe where
  leased : ℕ → Bool
  acquireResult : ℕ → Option String

def leaseLoop (p : LeaseProbe) (msg : String) (maxRetries retryDelay : ℕ) :
    ℕ → ℕ → Except String String × ℕ × List ℕ
  | _, 0 => (.error msg, 0, [])
  | attempt, fuel + 1 =>
    let acquired : Option String :=
      if p.leased attempt = false then p.acquireResult attempt else none
    match acquired with
    | some lease_id => (.ok lease_id, 1, [])
    | none =>
      let rest := leaseLoop p msg maxRetries retryDelay (attempt + 1) fuel
      if attempt < maxRetries - 1 then (rest.1, rest.2.1 + 1, retryDelay :: rest.2.2)
      else (rest.1, rest.2.1 + 1, rest.2.2)

def acquireLeaseModel (p : LeaseProbe) (container_name blob_name : String)
    (maxRetries retryDelay : ℕ) : Except String String × ℕ × List ℕ :=
  leaseLoop p
    ("Failed to acquire lease for Blob " ++ blob_name ++ " in container " ++
     container_name ++ ".")
    maxRetries retryDelay 0 maxRetries

-- VoyagerIndexManager (src/utils/indexes/voyager_index_manager.py).  Only the
-- pieces the stats claim needs are modelled: the constructor branch structure
-- (`if index:` uses Python truthiness, and voyager.Index defines __len__, so an
-- empty index is falsy), the __ndims attribute that is assigned only on the
-- fresh-index branch (modelled as Option), and the stats property that reads it
-- (AttributeError modelled as Except.error).

inductive VoySpace where
  | euclidean : VoySpace
  | innerProduct : VoySpace
  | cosine : VoySpace
deriving DecidableEq

structure VoyIndex where
  space : VoySpace
  num_dimensions : ℕ
  num_elements : ℕ
deriving DecidableEq

structure VoyagerIndexManager where
  ndims : Option ℕ
  index : VoyIndex
  space : VoySpace
deriving DecidableEq

def voySpaceMap (space_type : String) : Option VoySpace :=
  if space_type = "euclidean" then some .euclidean
  else if space_type = "innerproduct" then some .innerProduct
  else if space_type = "cosine" then some .cosine
  else none

def voyagerInit (index : Option VoyIndex) (ndims : ℕ) (space_type : String) :
    Except String VoyagerIndexManager :=
  match voySpaceMap space_type with
  | none => .error "space_type must be one of: euclidean, innerproduct, or cosine"
  | some sp =>
    match index with
    | some ix =>
      if ix.num_elements ≠ 0 then .ok ⟨none, ix, sp⟩
      else .ok ⟨some ndims, ⟨sp, ndims, 0⟩, sp⟩
    | none => .ok ⟨some ndims, ⟨sp, ndims, 0⟩, sp⟩

-- load_from_byte deserialises the bytes back into an Index value and calls the
-- constructor with it and the default ndims=3072, space_type="cosine".
def voyagerLoadFromByte (loaded_index : VoyIndex) : Except String VoyagerIndexManager :=
  voyagerInit (some loaded_index) 3072 "cosine"

def voyagerStats (m : VoyagerIndexManager) : Except String (ℕ × ℕ × VoySpace) :=
  match m.ndims with
  | none => .error "AttributeError: no attribute __ndims"
  | some d => .ok (m.index.num_elements, d, m.space)

def voyEmptyIdx : VoyIndex := ⟨.cosine, 7, 0⟩

def voyFromEmpty : VoyagerIndexManager := ⟨some 3072, ⟨.cosine, 3072, 0⟩, .cosine⟩

-- BM25IndexManager (src/utils/indexes/bm25_index_manager.py) over rank_bm25's
-- BM25Okapi.  The Janome tokenizer is modelled on space-separated Latin-script
-- input, where it emits one token per alphabetic run and skips the whitespace:
-- this is exactly splitting on spaces.  Machine floats are modelled as ℝ (the
-- spec compares scores only up to floating-point tolerance).

def splitOnSpaces : List Char → List Char → List String
  | [], acc => if acc.isEmpty then [] else [String.mk acc.reverse]
  | c :: rest, acc =>
    if c = ' ' then
      (if acc.isEmpty then [] else [String.mk acc.reverse]) ++ splitOnSpaces rest []
    else splitOnSpaces rest (c :: acc)

-- Split on spaces, dropping empty tokens (one token per maximal non-space run).
def bm25Tokenize (text : String) : List String :=
  splitOnSpaces text.data []

-- The manager state: the Python object's fields.  __index (None before any
-- rebuild) is represented by the data BM25Okapi is (re)built from, namely the
-- tokenized active corpus; k1 and b are carried alongside in the state.
-- __active_indices is the cached list computed by the last __update_index; the
-- attribute exists only after the first rebuild, but it is only ever read
-- behind an `index is not None` short-circuit, so defaulting it to [] in the
-- uninitialized state is unobservable.
structure BM25State where
  docs : List String
  deleted_flags : Finset ℕ
  k1 : ℝ
  b : ℝ
  index : Option (List (List String))
  active_indices : List ℕ

-- active_docs = [doc for i, doc in enumerate(docs) if i not in deleted_flags]
def activeDocs (docs : List String) (flags : Finset ℕ) : List String :=
  (docs.enum.filter (fun p => p.1 ∉ flags)).map (fun p => p.2)

-- active_indices = [i for i in range(len(docs)) if i not in deleted_flags]
def activeList (docs : List String) (flags : Finset ℕ) : List ℕ :=
  (List.range docs.length).filter (fun i => i ∉ flags)

-- The tokenized corpus __update_index hands to BM25Okapi.
def tokenizedActive (docs : List String) (flags : Finset ℕ) : List (List String) :=
  (activeDocs docs flags).map bm25Tokenize

-- BM25Okapi(tokenized_corpus, k1, b) raises ZeroDivisionError when the corpus
-- is empty (rank_bm25 _initialize ends with avgdl = num_doc / corpus_size and
-- corpus_size stays 0), and also when the corpus is non-empty but every
-- document tokenized to no tokens (_calc_idf then divides the integer 0 by
-- len(self.idf) = 0).  Both conditions amount to the flattened corpus being
-- empty, and both raise with the message of integer division by zero.
def bm25OkapiBuild (tokenized_corpus : List (List String)) : Except String Unit :=
  if tokenized_corpus.flatten = [] then
    .error "ZeroDivisionError: division by zero"
  else .ok ()

-- __update_index: rebuild the BM25Okapi index from the non-tombstoned
-- documents and refresh the active-position cache.  `self.__index =
-- BM25Okapi(...)` raises before either assignment when the rebuild fails, so
-- on the error outcome both caches keep their previous (now possibly stale)
-- values.
def updateIndex (m : BM25State) : BM25State × Except String Unit :=
  match bm25OkapiBuild (tokenizedActive m.docs m.deleted_flags) with
  | .error e => (m, .error e)
  | .ok _ =>
    (⟨m.docs, m.deleted_flags, m.k1, m.b,
      some (tokenizedActive m.docs m.deleted_flags),
      activeList m.docs m.deleted_flags⟩, .ok ())

-- A fresh BM25IndexManager() with the default hyperparameters k1=1.5, b=0.75.
noncomputable def bm25New : BM25State := ⟨[], ∅, 3 / 2, 3 / 4, none, []⟩

-- A clean manager state: the caches agree with docs/deleted_flags and the
-- rebuild over them succeeds.  __update_index establishes exactly this on
-- success, so it holds for every initialized manager whose most recent
-- mutation did not raise; a mutation whose rebuild raised leaves a stale
-- state instead (see BM25Reachable below).
def BM25WF (m : BM25State) : Prop :=
  m.index = some (tokenizedActive m.docs m.deleted_flags) ∧
  m.active_indices = activeList m.docs m.deleted_flags ∧
  bm25OkapiBuild (tokenizedActive m.docs m.deleted_flags) = Except.ok ()

-- add: extend the document list in place, compute the fresh position ids
-- range(start_id, len(docs)), reset the tombstone set whenever the index is
-- uninitialized or the cached active-position list is empty, then rebuild.
-- When the rebuild raises, the mutations made so far stay on the object, the
-- caches stay stale, and the exception propagates (no ids are returned).
def bm25Add (m : BM25State) (documents : List String) :
    BM25State × Except String (List ℕ) :=
  let new_ids := List.range' m.docs.length documents.length
  let flags2 :=
    if m.index = none ∨ m.active_indices = [] then (∅ : Finset ℕ)
    else m.deleted_flags
  let r := updateIndex ⟨m.docs ++ documents, flags2, m.k1, m.b, m.index, m.active_indices⟩
  (r.1, r.2.map (fun _ => new_ids))

-- remove: state error when uninitialized; otherwise tombstone every in-range
-- id (the set is mutated first) and rebuild; a failed rebuild leaves the new
-- tombstones next to the stale caches and re-raises.
def bm25Remove (m : BM25State) (ids : List ℕ) : BM25State × Except String Unit :=
  if m.index = none then
    (m, .error "Index is not initialized. Please add documents first.")
  else
    let flags2 :=
      ids.foldl (fun fl id => if id < m.docs.length then insert id fl else fl)
        m.deleted_flags
    updateIndex ⟨m.docs, flags2, m.k1, m.b, m.index, m.active_indices⟩

-- unmark_deleted: the same shape as remove, clearing present flags instead.
def bm25UnmarkDeleted (m : BM25State) (ids : List ℕ) :
    BM25State × Except String Unit :=
  if m.index = none then
    (m, .error "Index is not initialized. Please add documents first.")
  else
    let flags2 :=
      ids.foldl (fun fl id => if id ∈ fl then fl.erase id else fl) m.deleted_flags
    updateIndex ⟨m.docs, flags2, m.k1, m.b, m.index, m.active_indices⟩

-- BM25Okapi (rank_bm25 0.2.2) scoring, in ℝ.  nd maps a word to the number of
-- documents containing it; idf(w) = log(N - nd(w) + 0.5) - log(nd(w) + 0.5),
-- with negative idf values floored to epsilon * average_idf (epsilon = 0.25);
-- get_scores sums, over the query terms, idf(q) * (f * (k1+1)) / (f + k1 *
-- (1 - b + b * |d| / avgdl)) where f is the term frequency in the document.

def docFreqBM25 (corpus : List (List String)) (w : String) : ℕ :=
  (corpus.filter (fun d => w ∈ d)).length

def vocabulary (corpus : List (List String)) : List String :=
  corpus.flatten.dedup

noncomputable def rawIdf (corpus : List (List String)) (w : String) : ℝ :=
  Real.log ((corpus.length : ℝ) - (docFreqBM25 corpus w : ℝ) + 1 / 2) -
    Real.log ((docFreqBM25 corpus w : ℝ) + 1 / 2)

noncomputable def averageIdf (corpus : List (List String)) : ℝ :=
  ((vocabulary corpus).map (fun w => rawIdf corpus w)).sum /
    ((vocabulary corpus).length : ℝ)

noncomputable def idfFloored (corpus : List (List String)) (w : String) : ℝ :=
  if rawIdf corpus w < 0 then (1 / 4) * averageIdf corpus else rawIdf corpus w

-- self.idf.get(q) or 0: 0 for out-of-vocabulary terms (and a stored 0.0 also
-- yields 0, which coincides with the stored value).
noncomputable def idfOrZero (corpus : List (List String)) (w : String) : ℝ :=
  if w ∈ vocabulary corpus then idfFloored corpus w else 0

noncomputable def avgdlBM25 (corpus : List (List String)) : ℝ :=
  ((corpus.map (fun d => (d.length : ℝ))).sum) / (corpus.length : ℝ)

noncomputable def termScore (corpus : List (List String)) (k1 b : ℝ)
    (d : List String) (w : String) : ℝ :=
  idfOrZero corpus w *
    (((d.count w : ℕ) : ℝ) * (k1 + 1) /
      (((d.count w : ℕ) : ℝ) + k1 * (1 - b + b * (d.length : ℝ) / avgdlBM25 corpus)))

noncomputable def bm25Score (corpus : List (List String)) (k1 b : ℝ)
    (query : List String) (d : List String) : ℝ :=
  (query.map (fun w => termScore corpus k1 b d w)).sum

noncomputable def bm25GetScores (corpus : List (List String)) (k1 b : ℝ)
    (query : List String) : List ℝ :=
  corpus.map (fun d => bm25Score corpus k1 b query d)

-- search: empty result (not an error) when the index is uninitialized or no
-- active document remains; otherwise score the active corpus, stably sort
-- enumerate(doc_scores) by descending score (Python's sorted is stable), take
-- the top k and translate positions through __active_indices.
noncomputable def bm25Search (m : BM25State) (query : String) (k : ℕ) :
    List ℕ × List ℝ :=
  match m.index with
  | none => ([], [])
  | some corpus =>
    if m.active_indices = [] then ([], [])
    else
      let tokenized_query := bm25Tokenize query
      let doc_scores := bm25GetScores corpus m.k1 m.b tokenized_query
      let top_n :=
        (doc_scores.enum.mergeSort (fun a b => decide (b.2 ≤ a.2))).take k
      (top_n.map (fun p => m.active_indices.getD p.1 0),
       top_n.map (fun p => p.2))

-- export: state error when uninitialized, otherwise pickle
-- {index, docs, deleted_flags, k1, b}.
structure BM25ExportData where
  index : List (List String)
  docs : List String
  deleted_flags : Finset ℕ
  k1 : ℝ
  b : ℝ

def bm25Export (m : BM25State) : Except String BM25ExportData :=
  match m.index with
  | none => .error "Index is not initialized. Please add documents first."
  | some corpus => .ok ⟨corpus, m.docs, m.deleted_flags, m.k1, m.b⟩

-- load_from_byte: unpickle and call the constructor with the stored fields.
-- The constructor stores them and immediately calls __update_index, which
-- rebuilds the ranking model from docs/deleted_flags and overwrites the
-- deserialized index object; when that rebuild raises, the constructor raises
-- and no manager instance is produced (on success the `if docs:` re-update is
-- idempotent).
def bm25LoadFromByte (d : BM25ExportData) : Except String BM25State :=
  let r := updateIndex ⟨d.docs, d.deleted_flags, d.k1, d.b, some d.index, []⟩
  match r.2 with
  | .ok _ => .ok r.1
  | .error e => .error e

-- Manager states constructible through the public API from a fresh manager,
-- with persistence restricted to the API's own exports: the constructor, then
-- add / remove / unmark_deleted (each keeping the mutated object when its
-- rebuild raises: the exception propagates but the instance survives), and
-- loading the bytes previously exported from a reachable manager.
inductive BM25Reachable : BM25State → Prop where
  | new : ∀ k1 b : ℝ, BM25Reachable ⟨[], ∅, k1, b, none, []⟩
  | add : ∀ m documents, BM25Reachable m → BM25Reachable (bm25Add m documents).1
  | remove : ∀ m ids, BM25Reachable m → BM25Reachable (bm25Remove m ids).1
  | unmark : ∀ m ids, BM25Reachable m → BM25Reachable (bm25UnmarkDeleted m ids).1
  | load : ∀ m0 d m, BM25Reachable m0 → bm25Export m0 = Except.ok d →
      bm25LoadFromByte d = Except.ok m → BM25Reachable m

-- The data-structure invariant every reachable state satisfies: tombstones
-- only mark in-range positions, and an initialized manager's cached
-- active-position list is nonempty (a successful rebuild implies a nonempty
-- active corpus, and a failed rebuild leaves the previous nonempty cache).
def BM25Inv (m : BM25State) : Prop :=
  (∀ i ∈ m.deleted_flags, i < m.docs.length) ∧
  (m.index ≠ none → m.active_indices ≠ [])

-- The reachable stale all-tombstoned state: add one document, then remove it.
-- The remove first tombstones position 0 and then raises ZeroDivisionError
-- rebuilding over the empty active corpus, so the caches keep the values from
-- the previous rebuild (index over [["cat"]], active positions [0]).
noncomputable def bm25StaleOne : BM25State :=
  (bm25Remove (bm25Add bm25New ["cat"]).1 [0]).1

-- A concrete clean one-document state used by witnesses.
noncomputable def bm25OneDoc : BM25State :=
  ⟨["a"], ∅, 3 / 2, 3 / 4, some [["a"]], [0]⟩

-- A one-backend manager over fresh (empty) persisted mapping stores, used by
-- the Scenario D theorem, and a probe describing a resource that is leased by
-- another actor at every observation, used by the lease theorem.

def demoManager : ManagerState :=
  ⟨⟨0, []⟩, ⟨[], []⟩, [⟨"keyword", fun _ => [0], fun _ => .ok ()⟩]⟩

def alwaysLeasedProbe : LeaseProbe := ⟨fun _ => true, fun _ => none⟩

-- Lemmas about the ordered-dictionary model.

theorem dictGet_eq_none_of_contains_false {β : Type} (d : List (String × β))
    (k : String) (h : dictContains d k = false) : dictGet d k = none := by
  unfold dictContains at h
  exact Option.not_isSome_iff_eq_none.mp (by simp [h])

theorem dictGet_dictRemove_self {β : Type} (d : List (String × β)) (k : String) :
    dictGet (dictRemove d k) k = none := by
  induction d with
  | nil => rfl
  | cons p d ih =>
    by_cases h : p.1 = k
    · simpa [dictRemove, List.filter_cons, h] using ih
    · simp [dictRemove, dictGet, List.filter_cons, List.find?, h] at ih ⊢

theorem cimRemoveMapping_get_none (s : CIMState) (chunk_id : String) :
    dictGet (cimRemoveMapping s chunk_id).id_map chunk_id = none := by
  unfold cimRemoveMapping
  by_cases h : dictContains s.id_map chunk_id
  · simp only [h, if_true]
    exact dictGet_dictRemove_self s.id_map chunk_id
  · simp only [h, if_false]
    exact dictGet_eq_none_of_contains_false s.id_map chunk_id (by simpa using h)

theorem cbmRemoveMapping_get_none (s : CBMState) (chunk_id : String) :
    dictGet (cbmRemoveMapping s chunk_id).mapping chunk_id = none := by
  unfold cbmRemoveMapping
  by_cases h : dictContains s.mapping chunk_id
  · simp only [h, if_true]
    exact dictGet_dictRemove_self s.mapping chunk_id
  · simp only [h, if_false]
    exact dictGet_eq_none_of_contains_false s.mapping chunk_id (by simpa using h)

-- The counter of the allocator is unchanged by every operation other than
-- get_new_id (add_mapping/remove_mapping reload it and save it back as is),
-- and get_new_id increments it by one.

theorem cimStep_counter_le (s : CIMState) (op : CIMOp) :
    s.id_counter ≤ (cimStep s op).id_counter := by
  cases op with
  | getNewId => exact Nat.le_succ _
  | addMapping cid ids => exact le_refl _
  | removeMapping cid =>
    simp only [cimStep, cimRemoveMapping]
    split <;> exact le_refl _
  | reload => exact le_refl _

theorem cimRun_lower_bound (ops : List CIMOp) :
    ∀ s : CIMState, ∀ v ∈ (cimRun s ops).2, s.id_counter ≤ v := by
  induction ops with
  | nil => intro s v hv; simp [cimRun] at hv
  | cons op ops ih =>
    intro s v hv
    simp only [cimRun, List.mem_append] at hv
    rcases hv with hv | hv
    · cases op <;> simp [cimIssued] at hv
      omega
    · exact le_trans (cimStep_counter_le s op) (ih (cimStep s op) v hv)

theorem cimRun_pairwise (ops : List CIMOp) :
    ∀ s : CIMState, (cimRun s ops).2.Pairwise (· < ·) := by
  induction ops with
  | nil => intro s; simp [cimRun]
  | cons op ops ih =>
    intro s
    cases op with
    | getNewId =>
      simp only [cimRun, cimIssued, cimStep, List.singleton_append,
        List.pairwise_cons]
      refine ⟨fun v hv => ?_, ih _⟩
      have := cimRun_lower_bound ops (cimGetNewId s).1 v hv
      simp only [cimGetNewId] at this
      omega
    | addMapping cid ids => simpa [cimRun, cimIssued] using ih (cimStep s (.addMapping cid ids))
    | removeMapping cid => simpa [cimRun, cimIssued] using ih (cimStep s (.removeMapping cid))
    | reload => simpa [cimRun, cimIssued] using ih (cimStep s .reload)

/-- C6: in every run of operations on the persisted allocator state (get_new_id
interleaved with add_mapping / remove_mapping / reloads of the persisted
counter), the integers issued by get_new_id are strictly increasing, hence no
value is ever issued twice, and every issued value is at least the starting
counter; moreover each get_new_id call returns the current counter encoded as a
string and persists the incremented counter. -/
theorem chunk_id_allocator_monotone (s : CIMState) (ops : List CIMOp) :
    (cimRun s ops).2.Pairwise (· < ·) ∧
    (cimRun s ops).2.Nodup ∧
    (∀ v ∈ (cimRun s ops).2, s.id_counter ≤ v) ∧
    cimGetNewId s = (⟨s.id_counter + 1, s.id_map⟩, toString s.id_counter) := by
  refine ⟨cimRun_pairwise ops s, ?_, cimRun_lower_bound ops s, rfl⟩
  exact (cimRun_pairwise ops s).imp (fun h => Nat.ne_of_lt h)

/-- C7: the reverse index of the chunk-blob mapping always equals the grouping
of the forward map by its container-colon-blob key in forward-map insertion
order: this holds after a load, after add_mapping unconditionally, and is
preserved by remove_mapping; and in Scenario D, the mapping manager add of two
texts for blob docs/a.pdf returns the chunk ids "0" and "1" and
get_chunk_ids_by_blob then returns exactly those ids in insertion order. -/
theorem cbm_reverse_index_invariant (persisted : List (String × String × String))
    (s : CBMState) (chunk_id container blob : String) (hInv : cbmInv s) :
    cbmInv (cbmLoad persisted) ∧
    cbmInv (cbmAddMapping s chunk_id container blob) ∧
    cbmInv (cbmRemoveMapping s chunk_id) ∧
    (∃ st2 : ManagerState,
      managerAdd demoManager "docs" "a.pdf" ["t1", "t2"] =
        Except.ok (st2, [("0", "t1"), ("1", "t2")]) ∧
      cbmGetChunkIdsByBlob st2.cbm "docs" "a.pdf" = ["0", "1"]) := by
  refine ⟨rfl, rfl, ?_, ?_⟩
  · unfold cbmRemoveMapping
    by_cases h : dictContains s.mapping chunk_id
    · simp only [h, if_true]; rfl
    · simpa [h] using hInv
  · exact ⟨_, rfl, rfl⟩

/-- C7 witness: the invariant theorem applied to the empty persisted store, the
freshly loaded state (whose invariant holds by construction) and concrete keys. -/
theorem cbm_reverse_index_invariant_witness :
    cbmInv (cbmLoad []) ∧
    cbmInv (cbmAddMapping (cbmLoad []) "0" "docs" "a.pdf") ∧
    cbmInv (cbmRemoveMapping (cbmLoad []) "0") ∧
    (∃ st2 : ManagerState,
      managerAdd demoManager "docs" "a.pdf" ["t1", "t2"] =
        Except.ok (st2, [("0", "t1"), ("1", "t2")]) ∧
      cbmGetChunkIdsByBlob st2.cbm "docs" "a.pdf" = ["0", "1"]) :=
  cbm_reverse_index_invariant [] (cbmLoad []) "0" "docs" "a.pdf" rfl

/-- C3: for every manager state (in particular for arbitrary backend remove
outcomes, including raising ones) and every chunk id, ChunkMappingManager.remove
runs to completion (it is a total function: backend exceptions are caught and
only logged) and removes the chunk entry from both the backend-id mapping store
and the blob mapping store, leaving the registered backends in place. -/
theorem manager_remove_always_cleans_mappings (st : ManagerState) (chunk_id : String) :
    dictGet (managerRemove st chunk_id).1.cim.id_map chunk_id = none ∧
    dictGet (managerRemove st chunk_id).1.cbm.mapping chunk_id = none ∧
    (managerRemove st chunk_id).1.searchers = st.searchers := by
  refine ⟨?_, ?_, rfl⟩
  · exact cimRemoveMapping_get_none st.cim chunk_id
  · exact cbmRemoveMapping_get_none st.cbm chunk_id

-- Lease-loop lemmas: under a permanently leased resource the loop performs
-- exactly its full retry budget with the back-off sleep after every attempt
-- but the last, and an error outcome is only ever produced after the full
-- budget of attempts.

theorem leaseLoop_succ (p : LeaseProbe) (msg : String) (mr d attempt fuel : ℕ) :
    leaseLoop p msg mr d attempt (fuel + 1) =
      match (if p.leased attempt = false then p.acquireResult attempt else none) with
      | some lease_id => (.ok lease_id, 1, [])
      | none =>
        if attempt < mr - 1 then
          ((leaseLoop p msg mr d (attempt + 1) fuel).1,
           (leaseLoop p msg mr d (attempt + 1) fuel).2.1 + 1,
           d :: (leaseLoop p msg mr d (attempt + 1) fuel).2.2)
        else
          ((leaseLoop p msg mr d (attempt + 1) fuel).1,
           (leaseLoop p msg mr d (attempt + 1) fuel).2.1 + 1,
           (leaseLoop p msg mr d (attempt + 1) fuel).2.2) := rfl

theorem leaseLoop_always_leased (p : LeaseProbe) (msg : String) (mr d : ℕ)
    (hL : ∀ n, p.leased n = true) :
    ∀ fuel attempt, attempt + fuel = mr →
      leaseLoop p msg mr d attempt fuel =
        (.error msg, fuel, List.replicate (fuel - 1) d) := by
  intro fuel
  induction fuel with
  | zero => intro attempt h; rfl
  | succ g ih =>
    intro attempt h
    have hrest := ih (attempt + 1) (by omega)
    have hnone : (if p.leased attempt = false then p.acquireResult attempt
        else none) = none := by simp [hL attempt]
    rw [leaseLoop_succ, hnone, hrest]
    cases g with
    | zero =>
      have hnot : ¬ attempt < mr - 1 := by omega
      simp [hnot]
    | succ g2 =>
      have hyes : attempt < mr - 1 := by omega
      simp [hyes, List.replicate_succ]

theorem leaseLoop_error_full_budget (p : LeaseProbe) (msg : String) (mr d : ℕ) :
    ∀ fuel attempt, (leaseLoop p msg mr d attempt fuel).1.isOk = false →
      (leaseLoop p msg mr d attempt fuel).2.1 = fuel := by
  intro fuel
  induction fuel with
  | zero => intro attempt _; rfl
  | succ g ih =>
    intro attempt h
    cases hacq : (if p.leased attempt = false then p.acquireResult attempt
        else none) with
    | some lid =>
      rw [leaseLoop_succ] at h
      simp only [hacq] at h
      simp [Except.isOk, Except.toBool] at h
    | none =>
      rw [leaseLoop_succ] at h ⊢
      simp only [hacq] at h ⊢
      by_cases hlt : attempt < mr - 1
      · simp only [if_pos hlt] at h ⊢
        rw [ih (attempt + 1) h]
      · simp only [if_neg hlt] at h ⊢
        rw [ih (attempt + 1) h]

/-- C8: when the target resource carries an active lease held by another actor
at every observation, acquire_lease performs exactly its default retry budget of
12 attempts with a 5-time-unit wait between consecutive attempts (11 waits) and
then fails with the lock-acquisition error; and for every environment whatsoever
the lock-acquisition error is only raised after all 12 attempts. -/
theorem acquire_lease_retry_budget (p : LeaseProbe) (container_name blob_name : String)
    (hL : ∀ n, p.leased n = true) :
    (acquireLeaseModel p container_name blob_name 12 5).1 =
      .error ("Failed to acquire lease for Blob " ++ blob_name ++
        " in container " ++ container_name ++ ".") ∧
    (acquireLeaseModel p container_name blob_name 12 5).2.1 = 12 ∧
    (acquireLeaseModel p container_name blob_name 12 5).2.2 = List.replicate 11 5 ∧
    (∀ q : LeaseProbe, (acquireLeaseModel q container_name blob_name 12 5).1.isOk = false →
      (acquireLeaseModel q container_name blob_name 12 5).2.1 = 12) := by
  have h := leaseLoop_always_leased p
    ("Failed to acquire lease for Blob " ++ blob_name ++ " in container " ++
      container_name ++ ".") 12 5 hL 12 0 rfl
  refine ⟨?_, ?_, ?_, ?_⟩
  · rw [acquireLeaseModel, h]
  · rw [acquireLeaseModel, h]
  · rw [acquireLeaseModel, h]
  · intro q hq
    exact leaseLoop_error_full_budget q _ 12 5 12 0 hq

/-- C8 witness: the retry-budget theorem applied to the probe that always
reports the resource as leased, on the mapping-file resource of Scenario E. -/
theorem acquire_lease_retry_budget_witness :
    (acquireLeaseModel alwaysLeasedProbe "docs" "a.pdf" 12 5).1 =
      .error ("Failed to acquire lease for Blob " ++ "a.pdf" ++
        " in container " ++ "docs" ++ ".") ∧
    (acquireLeaseModel alwaysLeasedProbe "docs" "a.pdf" 12 5).2.1 = 12 ∧
    (acquireLeaseModel alwaysLeasedProbe "docs" "a.pdf" 12 5).2.2 = List.replicate 11 5 ∧
    (∀ q : LeaseProbe, (acquireLeaseModel q "docs" "a.pdf" 12 5).1.isOk = false →
      (acquireLeaseModel q "docs" "a.pdf" 12 5).2.1 = 12) :=
  acquire_lease_retry_budget alwaysLeasedProbe "docs" "a.pdf" (fun _ => rfl)

/-- C10 counterexample: a VoyagerIndexManager constructed (through
load_from_byte) with an explicit index argument holding zero vectors does NOT
raise AttributeError on stats: `if index:` uses Python truthiness and
voyager.Index defines __len__, so the empty loaded index is falsy, the
fresh-index branch runs, __ndims is assigned the default 3072 and stats
succeeds. -/
theorem voyager_stats_empty_index_succeeds :
    voyagerLoadFromByte voyEmptyIdx = Except.ok voyFromEmpty ∧
    voyagerStats voyFromEmpty = Except.ok (0, 3072, VoySpace.cosine) :=
  ⟨rfl, rfl⟩

/-- C10 amended: for every VoyagerIndexManager constructed with an explicit
index argument holding at least one vector — which is the path taken by
load_from_file and load_from_byte whenever the loaded index is non-empty — the
truthy branch of the constructor leaves __ndims unassigned and accessing the
stats property raises AttributeError. -/
theorem voyager_stats_attribute_error (ix : VoyIndex) (h : ix.num_elements ≠ 0) :
    voyagerLoadFromByte ix = Except.ok ⟨none, ix, VoySpace.cosine⟩ ∧
    (∀ nd : ℕ, ∀ st : String, ∀ sp : VoySpace, voySpaceMap st = some sp →
      voyagerInit (some ix) nd st = Except.ok ⟨none, ix, sp⟩) ∧
    (∀ sp : VoySpace,
      voyagerStats ⟨none, ix, sp⟩ = Except.error "AttributeError: no attribute __ndims") := by
  refine ⟨?_, ?_, fun sp => rfl⟩
  · unfold voyagerLoadFromByte voyagerInit voySpaceMap
    simp [h]
  · intro nd st sp hsp
    unfold voyagerInit
    rw [hsp]
    simp [h]

/-- C10 witness: the amended theorem applied to a one-vector cosine index. -/
theorem voyager_stats_attribute_error_witness :
    voyagerLoadFromByte ⟨VoySpace.cosine, 3, 1⟩ =
      Except.ok ⟨none, ⟨VoySpace.cosine, 3, 1⟩, VoySpace.cosine⟩ ∧
    (∀ nd : ℕ, ∀ st : String, ∀ sp : VoySpace, voySpaceMap st = some sp →
      voyagerInit (some ⟨VoySpace.cosine, 3, 1⟩) nd st =
        Except.ok ⟨none, ⟨VoySpace.cosine, 3, 1⟩, sp⟩) ∧
    (∀ sp : VoySpace,
      voyagerStats ⟨none, ⟨VoySpace.cosine, 3, 1⟩, sp⟩ =
        Except.error "AttributeError: no attribute __ndims") :=
  voyager_stats_attribute_error ⟨VoySpace.cosine, 3, 1⟩ (by decide)

-- BM25 helper lemmas.  In a two-document corpus, the idf of a term occurring
-- in exactly one document is log(2 - 1 + 0.5) - log(1 + 0.5) = 0, it is not
-- floored (it is not negative), and therefore every document scores 0 for a
-- single-term query with that term.

theorem bm25OkapiBuild_ok (c : List (List String)) (h : c.flatten ≠ []) :
    bm25OkapiBuild c = Except.ok () := by
  unfold bm25OkapiBuild
  rw [if_neg h]

theorem bm25OkapiBuild_flatten_ne (c : List (List String))
    (h : bm25OkapiBuild c = Except.ok ()) : c.flatten ≠ [] := by
  intro hfe
  unfold bm25OkapiBuild at h
  rw [if_pos hfe] at h
  exact Except.noConfusion h

theorem updateIndex_eq_ok (docs : List String) (flags : Finset ℕ) (k1 b : ℝ)
    (idx : Option (List (List String))) (act : List ℕ)
    (h : bm25OkapiBuild (tokenizedActive docs flags) = Except.ok ()) :
    updateIndex ⟨docs, flags, k1, b, idx, act⟩ =
      (⟨docs, flags, k1, b, some (tokenizedActive docs flags),
        activeList docs flags⟩, Except.ok ()) := by
  unfold updateIndex
  dsimp only
  rw [h]

theorem updateIndex_eq_error (docs : List String) (flags : Finset ℕ) (k1 b : ℝ)
    (idx : Option (List (List String))) (act : List ℕ) (e : String)
    (h : bm25OkapiBuild (tokenizedActive docs flags) = Except.error e) :
    updateIndex ⟨docs, flags, k1, b, idx, act⟩ =
      (⟨docs, flags, k1, b, idx, act⟩, Except.error e) := by
  unfold updateIndex
  dsimp only
  rw [h]

-- The tombstone set produced by the remove loop only ever contains in-range
-- positions, and the one produced by the unmark loop is a subset of the
-- original.
theorem insertFlags_bounded (ids : List ℕ) (n : ℕ) :
    ∀ fl : Finset ℕ, (∀ i ∈ fl, i < n) →
      ∀ i ∈ ids.foldl (fun fl id => if id < n then insert id fl else fl) fl,
        i < n := by
  induction ids with
  | nil => intro fl hfl; exact hfl
  | cons id ids ih =>
    intro fl hfl
    by_cases hid : id < n
    · simp only [List.foldl_cons, if_pos hid]
      apply ih
      intro i hi
      rcases Finset.mem_insert.mp hi with h | h
      · omega
      · exact hfl i h
    · simp only [List.foldl_cons, if_neg hid]
      exact ih fl hfl

theorem eraseFlags_subset (ids : List ℕ) :
    ∀ fl : Finset ℕ,
      ids.foldl (fun fl id => if id ∈ fl then fl.erase id else fl) fl ⊆ fl := by
  induction ids with
  | nil => intro fl; exact Finset.Subset.refl fl
  | cons id ids ih =>
    intro fl
    by_cases hid : id ∈ fl
    · simp only [List.foldl_cons, if_pos hid]
      exact (ih (fl.erase id)).trans (Finset.erase_subset id fl)
    · simp only [List.foldl_cons, if_neg hid]
      exact ih fl

-- The tokenized active corpus and the cached active-position list always have
-- the same length: both are images of the same filtered enumeration.
theorem activeCorpus_length (docs : List String) (flags : Finset ℕ) :
    (tokenizedActive docs flags).length = (activeList docs flags).length := by
  unfold tokenizedActive activeDocs activeList
  rw [List.length_map, List.length_map,
    ← List.countP_eq_length_filter, ← List.countP_eq_length_filter]
  have h : docs.enum.map Prod.fst = List.range docs.length := by
    rw [List.range_eq_range']
    exact List.enumFrom_map_fst 0 docs
  rw [← h, List.countP_map]
  rfl

theorem activeList_ne_nil (docs : List String) (flags : Finset ℕ)
    (h : bm25OkapiBuild (tokenizedActive docs flags) = Except.ok ()) :
    activeList docs flags ≠ [] := by
  intro h2
  apply bm25OkapiBuild_flatten_ne _ h
  have h3 : (tokenizedActive docs flags).length = 0 := by
    rw [activeCorpus_length, h2]
    rfl
  rw [List.length_eq_zero.mp h3]
  rfl

-- A rebuild preserves the invariant: on success the fresh caches are
-- consistent and the fresh active list is nonempty; on failure the state is
-- returned unchanged.
theorem updateIndex_inv (docs : List String) (flags : Finset ℕ) (k1 b : ℝ)
    (idx : Option (List (List String))) (act : List ℕ)
    (hbound : ∀ i ∈ flags, i < docs.length)
    (hstale : idx ≠ none → act ≠ []) :
    BM25Inv (updateIndex ⟨docs, flags, k1, b, idx, act⟩).1 := by
  cases hb : bm25OkapiBuild (tokenizedActive docs flags) with
  | ok u =>
    cases u
    rw [updateIndex_eq_ok docs flags k1 b idx act hb]
    exact ⟨hbound, fun _ => activeList_ne_nil docs flags hb⟩
  | error e =>
    rw [updateIndex_eq_error docs flags k1 b idx act e hb]
    exact ⟨hbound, hstale⟩

-- Every state reachable through the public API satisfies the invariant; in
-- particular the reset branch of add (index is None / empty active cache)
-- never fires on an initialized reachable manager.
theorem bm25_reachable_invariant (m : BM25State) (h : BM25Reachable m) :
    BM25Inv m := by
  induction h with
  | new k1 b =>
    exact ⟨fun i hi => absurd hi (Finset.not_mem_empty i), fun h2 => absurd rfl h2⟩
  | add m documents _ ih =>
    unfold bm25Add
    dsimp only
    by_cases hreset : m.index = none ∨ m.active_indices = []
    · rw [if_pos hreset]
      exact updateIndex_inv _ _ _ _ _ _
        (fun i hi => absurd hi (Finset.not_mem_empty i)) ih.2
    · rw [if_neg hreset]
      refine updateIndex_inv _ _ _ _ _ _ ?_ ih.2
      intro i hi
      have h2 := ih.1 i hi
      rw [List.length_append]
      omega
  | remove m ids _ ih =>
    unfold bm25Remove
    by_cases hidx : m.index = none
    · rw [if_pos hidx]
      exact ih
    · rw [if_neg hidx]
      dsimp only
      exact updateIndex_inv _ _ _ _ _ _
        (insertFlags_bounded ids m.docs.length m.deleted_flags ih.1) ih.2
  | unmark m ids _ ih =>
    unfold bm25UnmarkDeleted
    by_cases hidx : m.index = none
    · rw [if_pos hidx]
      exact ih
    · rw [if_neg hidx]
      dsimp only
      exact updateIndex_inv _ _ _ _ _ _
        (fun i hi => ih.1 i (eraseFlags_subset ids m.deleted_flags hi)) ih.2
  | load m0 d m _ hexp hload ih =>
    have hd : d.docs = m0.docs ∧ d.deleted_flags = m0.deleted_flags := by
      unfold bm25Export at hexp
      cases hm0 : m0.index with
      | none =>
        rw [hm0] at hexp
        exact Except.noConfusion hexp
      | some c =>
        rw [hm0] at hexp
        injection hexp with h2
        rw [← h2]
        exact ⟨rfl, rfl⟩
    unfold bm25LoadFromByte at hload
    dsimp only at hload
    cases hb : bm25OkapiBuild (tokenizedActive d.docs d.deleted_flags) with
    | error e =>
      rw [updateIndex_eq_error d.docs d.deleted_flags d.k1 d.b (some d.index) [] e hb] at hload
      exact Except.noConfusion hload
    | ok u =>
      cases u
      rw [updateIndex_eq_ok d.docs d.deleted_flags d.k1 d.b (some d.index) [] hb] at hload
      injection hload with h2
      rw [← h2]
      refine ⟨?_, fun _ => activeList_ne_nil d.docs d.deleted_flags hb⟩
      intro i hi
      have hi2 : i ∈ m0.deleted_flags := by
        rw [← hd.2]
        exact hi
      show i < d.docs.length
      rw [hd.1]
      exact ih.1 i hi2

theorem activeDocs_empty_flags (docs : List String) :
    activeDocs docs (∅ : Finset ℕ) = docs := by
  unfold activeDocs
  have h1 : docs.enum.filter (fun p => decide (p.1 ∉ (∅ : Finset ℕ))) = docs.enum := by
    rw [List.filter_eq_self]
    intro p hp
    simp
  rw [h1]
  exact List.enumFrom_map_snd 0 docs

theorem tokenizedActive_empty_flags (docs : List String) :
    tokenizedActive docs (∅ : Finset ℕ) = docs.map bm25Tokenize := by
  unfold tokenizedActive
  rw [activeDocs_empty_flags]

-- When every original position is tombstoned and all tombstones are in range,
-- the active documents after an append are exactly the appended ones, at
-- positions range(len(docs), len(docs) + len(documents)).
theorem activeDocs_append_all_tombstoned (docs documents : List String)
    (flags : Finset ℕ) (hall : ∀ i < docs.length, i ∈ flags)
    (hbound : ∀ i ∈ flags, i < docs.length) :
    activeDocs (docs ++ documents) flags = documents := by
  unfold activeDocs
  rw [List.enum_append, List.filter_append]
  have h1 : docs.enum.filter (fun p => decide (p.1 ∉ flags)) = [] := by
    rw [List.filter_eq_nil_iff]
    intro p hp
    have hlt : p.1 < docs.length := List.fst_lt_of_mem_enum hp
    simp [hall p.1 hlt]
  have h2 : (documents.enumFrom docs.length).filter (fun p => decide (p.1 ∉ flags))
      = documents.enumFrom docs.length := by
    rw [List.filter_eq_self]
    intro p hp
    have hge : docs.length ≤ p.1 := List.le_fst_of_mem_enumFrom hp
    have hnot : p.1 ∉ flags := fun hmem => by
      have h3 := hbound p.1 hmem
      omega
    simp [hnot]
  rw [h1, h2, List.nil_append]
  exact List.enumFrom_map_snd docs.length documents

theorem activeList_append_all_tombstoned (docs documents : List String)
    (flags : Finset ℕ) (hall : ∀ i < docs.length, i ∈ flags)
    (hbound : ∀ i ∈ flags, i < docs.length) :
    activeList (docs ++ documents) flags =
      List.range' docs.length documents.length := by
  unfold activeList
  rw [List.length_append, List.range_add, List.filter_append]
  have h1 : (List.range docs.length).filter (fun i => decide (i ∉ flags)) = [] := by
    rw [List.filter_eq_nil_iff]
    intro i hi
    rw [List.mem_range] at hi
    simp [hall i hi]
  have h2 : ((List.range documents.length).map (docs.length + ·)).filter
      (fun i => decide (i ∉ flags))
      = (List.range documents.length).map (docs.length + ·) := by
    rw [List.filter_eq_self]
    intro i hi
    rw [List.mem_map] at hi
    obtain ⟨j, hj, rfl⟩ := hi
    have hnot : docs.length + j ∉ flags := fun hmem => by
      have h3 := hbound _ hmem
      omega
    simp [hnot]
  rw [h1, h2, List.nil_append, List.range'_eq_map_range]

-- add on a fresh manager: the reset branch fires (index is None), so the
-- tombstone set is cleared and the rebuild runs over all the new documents.
theorem bm25Add_fresh (documents : List String)
    (hdocs : (documents.map bm25Tokenize).flatten ≠ []) :
    bm25Add bm25New documents =
      (⟨documents, ∅, 3 / 2, 3 / 4, some (documents.map bm25Tokenize),
        activeList documents ∅⟩,
       Except.ok (List.range' 0 documents.length)) := by
  have htok : tokenizedActive ([] ++ documents) (∅ : Finset ℕ)
      = documents.map bm25Tokenize := by
    rw [List.nil_append]
    exact tokenizedActive_empty_flags documents
  have hok : bm25OkapiBuild (tokenizedActive ([] ++ documents) (∅ : Finset ℕ))
      = Except.ok () := by
    rw [htok]
    exact bm25OkapiBuild_ok _ hdocs
  unfold bm25Add bm25New
  dsimp only
  rw [if_pos (Or.inl rfl), updateIndex_eq_ok _ _ _ _ _ _ hok, htok, List.nil_append]
  rfl

-- The stale state reached by add(["cat"]); remove([0]): the remove tombstones
-- position 0, its rebuild raises over the empty active corpus, and the caches
-- keep the values of the previous rebuild.
theorem bm25StaleOne_eq :
    bm25StaleOne =
      ⟨["cat"], insert 0 ∅, 3 / 2, 3 / 4, some [bm25Tokenize "cat"], [0]⟩ := rfl

theorem bm25StaleOne_reachable : BM25Reachable bm25StaleOne :=
  BM25Reachable.remove (bm25Add bm25New ["cat"]).1 [0]
    (BM25Reachable.add bm25New ["cat"] (BM25Reachable.new (3 / 2) (3 / 4)))

theorem rawIdf_eq_zero (corpus : List (List String)) (w : String)
    (h2 : corpus.length = 2) (h1 : docFreqBM25 corpus w = 1) :
    rawIdf corpus w = 0 := by
  unfold rawIdf
  rw [h2, h1]
  have e : ((2 : ℕ) : ℝ) - ((1 : ℕ) : ℝ) + 1 / 2 = ((1 : ℕ) : ℝ) + 1 / 2 := by
    norm_num
  rw [e, sub_self]

theorem idfOrZero_eq_zero (corpus : List (List String)) (w : String)
    (h2 : corpus.length = 2) (h1 : docFreqBM25 corpus w = 1) :
    idfOrZero corpus w = 0 := by
  unfold idfOrZero idfFloored
  rw [rawIdf_eq_zero corpus w h2 h1]
  simp

theorem bm25Score_single_eq_zero (corpus : List (List String)) (k1 b : ℝ)
    (d : List String) (w : String)
    (h2 : corpus.length = 2) (h1 : docFreqBM25 corpus w = 1) :
    bm25Score corpus k1 b [w] d = 0 := by
  unfold bm25Score
  simp [termScore, idfOrZero_eq_zero corpus w h2 h1]

theorem bm25GetScores_pair (d0 d1 : List String) (k1 b : ℝ) (w : String)
    (h1 : docFreqBM25 [d0, d1] w = 1) :
    bm25GetScores [d0, d1] k1 b [w] = [0, 0] := by
  unfold bm25GetScores
  simp [bm25Score_single_eq_zero [d0, d1] k1 b _ w rfl h1]

-- Full evaluation of search on a two-document index for a single-term query
-- whose term occurs in exactly one document: both scores are 0, the stable
-- descending sort keeps the encounter order, and no zero-score filtering
-- takes place, so both positions are returned.
theorem bm25Search_two_docs (m : BM25State) (d0 d1 : List String) (q w : String)
    (hidx : m.index = some [d0, d1]) (hact : m.active_indices = [0, 1])
    (hq : bm25Tokenize q = [w]) (h1 : docFreqBM25 [d0, d1] w = 1) :
    bm25Search m q 5 = ([0, 1], [0, 0]) := by
  have hscores := bm25GetScores_pair d0 d1 m.k1 m.b w h1
  have henum : (([0, 0] : List ℝ)).enum = [(0, (0 : ℝ)), (1, (0 : ℝ))] := rfl
  have hms : (([(0, (0 : ℝ)), (1, (0 : ℝ))] : List (ℕ × ℝ)).mergeSort
      (fun a b => decide (b.2 ≤ a.2))) = [(0, 0), (1, 0)] := by
    apply List.mergeSort_of_sorted
    simp
  simp only [bm25Search, hidx, hact, hq, hscores, henum, hms]
  simp [List.take]

/-- C2 counterexample: on a fresh lexical index loaded with the two scenario
documents, search("cat", k=5) does not return the single position 0: the idf of
"cat" (present in one of the two documents) is ln(1.5/1.5) = 0, every score is
0, zero-score documents are not filtered out, and both positions come back. -/
theorem bm25_scenarioA_counterexample :
    (bm25Add bm25New ["the cat sat on the mat", "the dog ran in the park"]).2
      = Except.ok [0, 1] ∧
    (bm25Search
      (bm25Add bm25New ["the cat sat on the mat", "the dog ran in the park"]).1
      "cat" 5).1 ≠ [0] := by
  constructor
  · rfl
  · rw [bm25Search_two_docs _
      (bm25Tokenize "the cat sat on the mat")
      (bm25Tokenize "the dog ran in the park") "cat" "cat" rfl rfl rfl (by decide)]
    decide

/-- C2 amended: on a fresh lexical index, add returns the integer position ids
[0, 1], and search("cat", k=5) returns both positions, each with score 0 (the
idf of a term occurring in exactly half of a two-document corpus is 0 and
zero-score documents are not filtered out). -/
theorem bm25_scenarioA :
    (bm25Add bm25New ["the cat sat on the mat", "the dog ran in the park"]).2
      = Except.ok [0, 1] ∧
    bm25Search
      (bm25Add bm25New ["the cat sat on the mat", "the dog ran in the park"]).1
      "cat" 5 = ([0, 1], [0, 0]) := by
  refine ⟨rfl, ?_⟩
  exact bm25Search_two_docs _
    (bm25Tokenize "the cat sat on the mat")
    (bm25Tokenize "the dog ran in the park") "cat" "cat" rfl rfl rfl (by decide)

-- Stable descending sort: facts about
-- sorted(enumerate(doc_scores), key=score, reverse=True) used by the search
-- ranking theorem.  Python's sort is stable, as is List.mergeSort.

theorem pair_sublist_of_lt {α : Type} (l : List α) (p q : ℕ) (hp : p < l.length)
    (hq : q < l.length) (hpq : p < q) : List.Sublist [l[p], l[q]] l := by
  have hdrop : l[p] :: l.drop (p + 1) = l.drop p := List.getElem_cons_drop l p hp
  have hlen : q - (p + 1) < (l.drop (p + 1)).length := by
    rw [List.length_drop]; omega
  have hmem : l[q] ∈ l.drop (p + 1) := by
    have h1 : (l.drop (p + 1))[q - (p + 1)] ∈ l.drop (p + 1) := List.getElem_mem hlen
    rw [List.getElem_drop] at h1
    have h3 : p + 1 + (q - (p + 1)) = q := by omega
    simpa [h3] using h1
  have h1 : List.Sublist [l[p], l[q]] (l[p] :: l.drop (p + 1)) :=
    List.Sublist.cons₂ _ (List.singleton_sublist.mpr hmem)
  rw [hdrop] at h1
  exact h1.trans (List.drop_sublist p l)

theorem enum_pair_sublist {α : Type} {l : List α} {a b : ℕ × α}
    (ha : a ∈ l.enum) (hb : b ∈ l.enum) (hab : a.1 < b.1) : List.Sublist [a, b] l.enum := by
  have hla : a.1 < l.enum.length := by
    simpa using List.fst_lt_of_mem_enum ha
  have hlb : b.1 < l.enum.length := by
    simpa using List.fst_lt_of_mem_enum hb
  have hga : l.enum[a.1] = a := by
    obtain ⟨h4, h5⟩ := List.getElem?_eq_some_iff.mp (List.mem_enum_iff_getElem?.mp ha)
    have h6 : l.enum[a.1] = (0 + a.1, l.get ⟨a.1, h4⟩) :=
      List.getElem_enumFrom l 0 a.1 hla
    rw [h6]
    simp [List.get_eq_getElem, h5]
  have hgb : l.enum[b.1] = b := by
    obtain ⟨h4, h5⟩ := List.getElem?_eq_some_iff.mp (List.mem_enum_iff_getElem?.mp hb)
    have h6 : l.enum[b.1] = (0 + b.1, l.get ⟨b.1, h4⟩) :=
      List.getElem_enumFrom l 0 b.1 hlb
    rw [h6]
    simp [List.get_eq_getElem, h5]
  have h := pair_sublist_of_lt l.enum a.1 b.1 hla hlb hab
  rw [hga, hgb] at h
  exact h

theorem sublist_pair_eq_of_nodup {α : Type} {a b : α} :
    ∀ {l : List α}, l.Nodup → List.Sublist [a, b] l → List.Sublist [b, a] l → a = b := by
  intro l
  induction l with
  | nil => intro _ h1 _; simp at h1
  | cons x t ih =>
    intro hnd h1 h2
    rw [List.nodup_cons] at hnd
    cases h1 with
    | cons _ h1 =>
      cases h2 with
      | cons _ h2 => exact ih hnd.2 h1 h2
      | cons₂ _ h2 => exact absurd (h1.subset (by simp)) hnd.1
    | cons₂ _ h1 =>
      cases h2 with
      | cons _ h2 => exact absurd (h2.subset (by simp)) hnd.1
      | cons₂ _ h2 => rfl

-- The stable descending sort of enumerate(doc_scores) is pairwise ordered by
-- strictly decreasing score, with ties ordered by increasing position: the
-- score order comes from sortedness, the tie order from stability plus the
-- distinctness of the enumerate positions.
theorem mergeSort_desc_pairwise (l : List ℝ) :
    (l.enum.mergeSort (fun a b => decide (b.2 ≤ a.2))).Pairwise
      (fun x y : ℕ × ℝ => y.2 < x.2 ∨ (x.2 = y.2 ∧ x.1 < y.1)) := by
  have htrans : ∀ a b c : ℕ × ℝ, (decide (b.2 ≤ a.2) = true) →
      (decide (c.2 ≤ b.2) = true) → (decide (c.2 ≤ a.2) = true) := by
    intro a b c h1 h2
    simp only [decide_eq_true_eq] at h1 h2 ⊢
    exact le_trans h2 h1
  have htotal : ∀ a b : ℕ × ℝ,
      (decide (b.2 ≤ a.2) || decide (a.2 ≤ b.2)) = true := by
    intro a b
    simp only [Bool.or_eq_true, decide_eq_true_eq]
    exact le_total b.2 a.2
  have hsorted := List.sorted_mergeSort htrans htotal l.enum
  have hperm := List.mergeSort_perm l.enum (fun a b => decide (b.2 ≤ a.2))
  have henum_nodup : l.enum.Nodup := (List.nodup_enum_map_fst l).of_map _
  have hnodup := hperm.symm.nodup henum_nodup
  rw [List.pairwise_iff_forall_sublist]
  intro a b hsub
  have hba : b.2 ≤ a.2 := by
    have h := List.pairwise_iff_forall_sublist.mp hsorted hsub
    simpa using h
  rcases lt_or_eq_of_le hba with hlt | heq
  · exact Or.inl hlt
  · refine Or.inr ⟨heq.symm, ?_⟩
    by_contra hnot
    have hamem : a ∈ l.enum := hperm.subset (hsub.subset (by simp))
    have hbmem : b ∈ l.enum := hperm.subset (hsub.subset (by simp))
    rcases Nat.lt_or_ge b.1 a.1 with hba1 | hge
    · have hsub2 : List.Sublist [b, a] l.enum := enum_pair_sublist hbmem hamem hba1
      have hpw : List.Pairwise
          (fun x y : ℕ × ℝ => decide (y.2 ≤ x.2) = true) [b, a] := by
        refine List.pairwise_cons.mpr ⟨?_, List.pairwise_singleton _ _⟩
        intro y hy
        rw [List.mem_singleton] at hy
        subst hy
        exact decide_eq_true heq.ge
      have hsub3 := List.sublist_mergeSort htrans htotal hpw hsub2
      have heqab := sublist_pair_eq_of_nodup hnodup hsub hsub3
      rw [heqab] at hba1
      exact absurd hba1 (lt_irrefl _)
    · have h1 : a.1 = b.1 := by omega
      have hab : a = b := Prod.ext h1 heq.symm
      rw [hab] at hsub
      exact (List.nodup_iff_sublist.mp hnodup b) hsub

theorem mem_sortTop_fst_lt (sc : List ℝ) (k : ℕ) (p : ℕ × ℝ)
    (hp : p ∈ (sc.enum.mergeSort (fun a b => decide (b.2 ≤ a.2))).take k) :
    p.1 < sc.length :=
  List.fst_lt_of_mem_enum
    ((List.mergeSort_perm sc.enum (fun a b => decide (b.2 ≤ a.2))).subset
      (List.take_subset k _ hp))

theorem searchTop_mem (act : List ℕ) (sc : List ℝ) (k : ℕ)
    (hlen : sc.length = act.length) :
    ∀ id ∈ ((sc.enum.mergeSort (fun a b => decide (b.2 ≤ a.2))).take k).map
        (fun p => act.getD p.1 0), id ∈ act := by
  intro id hid
  rw [List.mem_map] at hid
  obtain ⟨p, hp, hpe⟩ := hid
  have hlt : p.1 < act.length := by
    have := mem_sortTop_fst_lt sc k p hp
    omega
  rw [← hpe, List.getD_eq_getElem act 0 hlt]
  exact List.getElem_mem hlt

theorem searchTop_sorted (act : List ℕ) (sc : List ℝ) (k : ℕ)
    (hlen : sc.length = act.length) (hpw : act.Pairwise (· < ·)) :
    ((((sc.enum.mergeSort (fun a b => decide (b.2 ≤ a.2))).take k).map
        (fun p => act.getD p.1 0)).zip
      (((sc.enum.mergeSort (fun a b => decide (b.2 ≤ a.2))).take k).map
        (fun p => p.2))).Pairwise
      (fun x y : ℕ × ℝ => y.2 < x.2 ∨ (x.2 = y.2 ∧ x.1 < y.1)) := by
  rw [List.zip_map', List.pairwise_map]
  have htop := List.Pairwise.sublist (List.take_sublist k _)
    (mergeSort_desc_pairwise sc)
  refine List.Pairwise.imp_of_mem ?_ htop
  intro p q hp hq hrel
  have hpb : p.1 < act.length := by
    have := mem_sortTop_fst_lt sc k p hp
    omega
  have hqb : q.1 < act.length := by
    have := mem_sortTop_fst_lt sc k q hq
    omega
  rcases hrel with h | ⟨hs, hf⟩
  · exact Or.inl h
  · refine Or.inr ⟨hs, ?_⟩
    rw [List.getD_eq_getElem act 0 hpb, List.getD_eq_getElem act 0 hqb]
    exact List.pairwise_iff_getElem.mp hpw p.1 q.1 hpb hqb hf

-- Every position id search returns comes from the cached active-position
-- list (the translation step reads that list at in-range offsets only).
theorem bm25Search_mem_active (m : BM25State) (corpus : List (List String))
    (q : String) (k : ℕ) (hidx : m.index = some corpus)
    (hlen : corpus.length = m.active_indices.length) :
    ∀ id ∈ (bm25Search m q k).1, id ∈ m.active_indices := by
  intro id hid
  by_cases hempty : m.active_indices = []
  · simp only [bm25Search, hidx, if_pos hempty] at hid
    simp at hid
  · simp only [bm25Search, hidx, if_neg hempty] at hid
    have hlen2 : (bm25GetScores corpus m.k1 m.b (bm25Tokenize q)).length
        = m.active_indices.length := by
      unfold bm25GetScores
      rw [List.length_map, hlen]
    exact searchTop_mem m.active_indices _ k hlen2 id hid

-- Full evaluation of search on a single-document index: the one (position,
-- score) pair survives the sort and the take, and the position translates
-- through the cached active list.
theorem bm25Search_single (m : BM25State) (d : List String) (q : String)
    (i k : ℕ) (hidx : m.index = some [d]) (hact : m.active_indices = [i]) :
    (bm25Search m q (k + 1)).1 = [i] := by
  have hsc : bm25GetScores [d] m.k1 m.b (bm25Tokenize q)
      = [bm25Score [d] m.k1 m.b (bm25Tokenize q) d] := rfl
  have henum : ([bm25Score [d] m.k1 m.b (bm25Tokenize q) d] : List ℝ).enum
      = [(0, bm25Score [d] m.k1 m.b (bm25Tokenize q) d)] := rfl
  have hms : (([(0, bm25Score [d] m.k1 m.b (bm25Tokenize q) d)] : List (ℕ × ℝ)).mergeSort
      (fun a b => decide (b.2 ≤ a.2)))
      = [(0, bm25Score [d] m.k1 m.b (bm25Tokenize q) d)] := by
    apply List.mergeSort_of_sorted
    simp
  simp only [bm25Search, hidx, hact, hsc, henum, hms]
  simp [List.take]

/-- C5 counterexample: the initialized manager reached by add(["cat"]) then
remove([0]) — the remove tombstones position 0 and its rebuild raises
ZeroDivisionError over the empty active corpus, leaving the caches stale —
returns the tombstoned position 0 from search("cat", 5), so search on an
initialized manager is not in general restricted to non-tombstoned
positions. -/
theorem bm25_search_stale_counterexample :
    BM25Reachable bm25StaleOne ∧
    bm25StaleOne.index ≠ none ∧
    0 ∈ bm25StaleOne.deleted_flags ∧
    (bm25Search bm25StaleOne "cat" 5).1 = [0] := by
  refine ⟨bm25StaleOne_reachable, ?_, ?_, ?_⟩
  · rw [bm25StaleOne_eq]
    simp
  · rw [bm25StaleOne_eq]
    decide
  · exact bm25Search_single bm25StaleOne (bm25Tokenize "cat") "cat" 0 4
      (by rw [bm25StaleOne_eq]) (by rw [bm25StaleOne_eq])

/-- C5 amended: for every manager whose caches are consistent with its
documents and tombstones (the state established by every successful rebuild;
a mutation whose rebuild raised leaves stale caches instead, see the
counterexample), search returns at most k position ids, every returned id is
an in-range non-tombstoned position, the returned (id, score) pairs are
ordered by strictly decreasing score with ties between equal scores ordered
by increasing position id (the stable sort keeps encounter order, and active
positions increase), and on any manager whose cached active list is empty
search returns the pair of empty lists rather than an error. -/
theorem bm25_search_ranked (m : BM25State) (hWF : BM25WF m) (query : String)
    (k : ℕ) :
    (bm25Search m query k).1.length ≤ k ∧
    (∀ id ∈ (bm25Search m query k).1, id < m.docs.length ∧ id ∉ m.deleted_flags) ∧
    ((bm25Search m query k).1.zip (bm25Search m query k).2).Pairwise
      (fun x y : ℕ × ℝ => y.2 < x.2 ∨ (x.2 = y.2 ∧ x.1 < y.1)) ∧
    (∀ m2 : BM25State, m2.active_indices = [] → bm25Search m2 query k = ([], [])) := by
  obtain ⟨hidx, hact, hbuild⟩ := hWF
  have hempty : ¬ m.active_indices = [] := by
    rw [hact]
    exact activeList_ne_nil m.docs m.deleted_flags hbuild
  have hlen : (bm25GetScores (tokenizedActive m.docs m.deleted_flags)
      m.k1 m.b (bm25Tokenize query)).length = m.active_indices.length := by
    unfold bm25GetScores
    rw [List.length_map, hact, activeCorpus_length]
  have hpwact : m.active_indices.Pairwise (· < ·) := by
    rw [hact]
    exact (List.pairwise_lt_range _).filter _
  refine ⟨?_, ?_, ?_, ?_⟩
  · simp only [bm25Search, hidx, if_neg hempty]
    simp only [List.length_map]
    exact List.length_take_le k _
  · intro id hid
    simp only [bm25Search, hidx, if_neg hempty] at hid
    have hmem := searchTop_mem m.active_indices _ k hlen id hid
    rw [hact] at hmem
    unfold activeList at hmem
    rw [List.mem_filter] at hmem
    obtain ⟨hr, hnf⟩ := hmem
    rw [List.mem_range] at hr
    refine ⟨hr, ?_⟩
    simpa using hnf
  · simp only [bm25Search, hidx, if_neg hempty]
    exact searchTop_sorted m.active_indices _ k hlen hpwact
  · intro m2 h2
    cases hm2 : m2.index with
    | none => simp [bm25Search, hm2]
    | some corpus => simp [bm25Search, hm2, h2]

/-- C5 witness: the ranked-search theorem applied to a concrete well-formed
one-document manager with query "a" and k = 1. -/
theorem bm25_search_ranked_witness :
    (bm25Search bm25OneDoc "a" 1).1.length ≤ 1 ∧
    (∀ id ∈ (bm25Search bm25OneDoc "a" 1).1,
      id < bm25OneDoc.docs.length ∧ id ∉ bm25OneDoc.deleted_flags) ∧
    ((bm25Search bm25OneDoc "a" 1).1.zip (bm25Search bm25OneDoc "a" 1).2).Pairwise
      (fun x y : ℕ × ℝ => y.2 < x.2 ∨ (x.2 = y.2 ∧ x.1 < y.1)) ∧
    (∀ m2 : BM25State, m2.active_indices = [] → bm25Search m2 "a" 1 = ([], [])) :=
  bm25_search_ranked bm25OneDoc ⟨rfl, rfl, rfl⟩ "a" 1

/-- C1 counterexample: on the reachable fully-tombstoned initialized manager
(add(["cat"]) then remove([0]), whose failed rebuild left the caches stale),
add([""]) does not succeed: the empty string tokenizes to no tokens, every
old position stays tombstoned, and the rebuild raises ZeroDivisionError, so
add does not succeed for every documents argument. -/
theorem bm25_add_tombstoned_raises :
    BM25Reachable bm25StaleOne ∧
    bm25StaleOne.index ≠ none ∧
    (∀ i < bm25StaleOne.docs.length, i ∈ bm25StaleOne.deleted_flags) ∧
    (bm25Add bm25StaleOne [""]).2 =
      Except.error "ZeroDivisionError: division by zero" := by
  refine ⟨bm25StaleOne_reachable, ?_, ?_, ?_⟩
  · rw [bm25StaleOne_eq]
    simp
  · rw [bm25StaleOne_eq]
    decide
  · rw [bm25StaleOne_eq]
    rfl

/-- C1 amended: on every reachable initialized manager state in which every
position in the document list is tombstoned, add(documents) with documents
holding at least one token succeeds, appends the documents at the fresh
positions, preserves the tombstone set (the reset branch cannot fire on a
reachable initialized state, whose cached active list is nonempty), and the
previously tombstoned positions are excluded from the results of every
subsequent search on the resulting manager. -/
theorem bm25_add_all_tombstoned (m : BM25State) (documents : List String)
    (hreach : BM25Reachable m) (hinit : m.index ≠ none)
    (hall : ∀ i < m.docs.length, i ∈ m.deleted_flags)
    (hdocs : (documents.map bm25Tokenize).flatten ≠ []) :
    (bm25Add m documents).2 =
      Except.ok (List.range' m.docs.length documents.length) ∧
    (bm25Add m documents).1.docs = m.docs ++ documents ∧
    (bm25Add m documents).1.deleted_flags = m.deleted_flags ∧
    ∀ q k i, i < m.docs.length → i ∉ (bm25Search (bm25Add m documents).1 q k).1 := by
  have hinv := bm25_reachable_invariant m hreach
  have hact : m.active_indices ≠ [] := hinv.2 hinit
  have hnoreset : ¬(m.index = none ∨ m.active_indices = []) := by
    rintro (h | h)
    · exact hinit h
    · exact hact h
  have htokA : activeDocs (m.docs ++ documents) m.deleted_flags = documents :=
    activeDocs_append_all_tombstoned m.docs documents m.deleted_flags hall hinv.1
  have htok : tokenizedActive (m.docs ++ documents) m.deleted_flags
      = documents.map bm25Tokenize := by
    unfold tokenizedActive
    rw [htokA]
  have hok : bm25OkapiBuild (tokenizedActive (m.docs ++ documents) m.deleted_flags)
      = Except.ok () := by
    rw [htok]
    exact bm25OkapiBuild_ok _ hdocs
  have hactL : activeList (m.docs ++ documents) m.deleted_flags
      = List.range' m.docs.length documents.length :=
    activeList_append_all_tombstoned m.docs documents m.deleted_flags hall hinv.1
  have hadd : bm25Add m documents =
      (⟨m.docs ++ documents, m.deleted_flags, m.k1, m.b,
        some (tokenizedActive (m.docs ++ documents) m.deleted_flags),
        activeList (m.docs ++ documents) m.deleted_flags⟩,
       Except.ok (List.range' m.docs.length documents.length)) := by
    unfold bm25Add
    dsimp only
    rw [if_neg hnoreset, updateIndex_eq_ok _ _ _ _ _ _ hok]
    rfl
  refine ⟨?_, ?_, ?_, ?_⟩
  · rw [hadd]
  · rw [hadd]
  · rw [hadd]
  · intro q k i hi hmem
    rw [hadd] at hmem
    have hmem2 := bm25Search_mem_active
      ⟨m.docs ++ documents, m.deleted_flags, m.k1, m.b,
        some (tokenizedActive (m.docs ++ documents) m.deleted_flags),
        activeList (m.docs ++ documents) m.deleted_flags⟩
      (tokenizedActive (m.docs ++ documents) m.deleted_flags) q k rfl
      (activeCorpus_length (m.docs ++ documents) m.deleted_flags) i hmem
    have hmem3 : i ∈ List.range' m.docs.length documents.length := by
      rw [← hactL]
      exact hmem2
    have h4 := List.mem_range'_1.mp hmem3
    omega

/-- C1 witness: the amended theorem applied to the reachable fully-tombstoned
one-document manager and documents = ["dog"]. -/
theorem bm25_add_all_tombstoned_witness :
    (bm25Add bm25StaleOne ["dog"]).2 =
      Except.ok (List.range' bm25StaleOne.docs.length
        (["dog"] : List String).length) ∧
    (bm25Add bm25StaleOne ["dog"]).1.docs = bm25StaleOne.docs ++ ["dog"] ∧
    (bm25Add bm25StaleOne ["dog"]).1.deleted_flags = bm25StaleOne.deleted_flags ∧
    ∀ q k i, i < bm25StaleOne.docs.length →
      i ∉ (bm25Search (bm25Add bm25StaleOne ["dog"]).1 q k).1 :=
  bm25_add_all_tombstoned bm25StaleOne ["dog"] bm25StaleOne_reachable
    (by rw [bm25StaleOne_eq]; simp)
    (by rw [bm25StaleOne_eq]; decide)
    (by decide)

/-- C4 counterexample: on a manager on which add has never been called, search
does not fail with a state error — it returns the pair of empty lists — and
add does not succeed for every documents argument: add([]) raises
ZeroDivisionError rebuilding over the empty corpus; remove does fail with the
state error. -/
theorem bm25_uninitialized_search_no_error :
    bm25Search bm25New "cat" 5 = ([], []) ∧
    (bm25Remove bm25New [0]).2 =
      Except.error "Index is not initialized. Please add documents first." ∧
    (bm25Add bm25New []).2 = Except.error "ZeroDivisionError: division by zero" := by
  refine ⟨rfl, ?_, rfl⟩
  simp [bm25Remove, bm25New]

/-- C4 amended: on an uninitialized manager, add succeeds whenever the new
documents hold at least one token (returning the fresh positions and leaving
a well-formed initialized state) and raises ZeroDivisionError when they hold
none (in particular for add([])); remove fails with the state error; and
search returns the pair of empty lists without error. -/
theorem bm25_uninitialized_behaviour (documents : List String) (ids : List ℕ)
    (q : String) (k : ℕ)
    (hdocs : (documents.map bm25Tokenize).flatten ≠ []) :
    (bm25Add bm25New documents).2 = Except.ok (List.range' 0 documents.length) ∧
    (bm25Add bm25New documents).1.docs = documents ∧
    BM25WF (bm25Add bm25New documents).1 ∧
    (bm25Add bm25New []).2 = Except.error "ZeroDivisionError: division by zero" ∧
    (bm25Remove bm25New ids).2 =
      Except.error "Index is not initialized. Please add documents first." ∧
    bm25Search bm25New q k = ([], []) := by
  have hadd := bm25Add_fresh documents hdocs
  refine ⟨?_, ?_, ?_, rfl, ?_, rfl⟩
  · rw [hadd]
  · rw [hadd]
  · rw [hadd]
    constructor
    · show some (documents.map bm25Tokenize) = some (tokenizedActive documents ∅)
      rw [tokenizedActive_empty_flags]
    constructor
    · rfl
    · show bm25OkapiBuild (tokenizedActive documents ∅) = Except.ok ()
      rw [tokenizedActive_empty_flags]
      exact bm25OkapiBuild_ok _ hdocs
  · simp [bm25Remove, bm25New]

/-- C4 witness: the amended theorem applied to documents = ["x"], ids = [0],
query "q" and k = 5. -/
theorem bm25_uninitialized_behaviour_witness :
    ((["x"] : List String).map bm25Tokenize).flatten ≠ [] ∧
    ((bm25Add bm25New ["x"]).2 =
        Except.ok (List.range' 0 (["x"] : List String).length) ∧
      (bm25Add bm25New ["x"]).1.docs = ["x"] ∧
      BM25WF (bm25Add bm25New ["x"]).1 ∧
      (bm25Add bm25New []).2 = Except.error "ZeroDivisionError: division by zero" ∧
      (bm25Remove bm25New [0]).2 =
        Except.error "Index is not initialized. Please add documents first." ∧
      bm25Search bm25New "q" 5 = ([], [])) :=
  ⟨by decide, bm25_uninitialized_behaviour ["x"] [0] "q" 5 (by decide)⟩

/-- C9 counterexample: the reachable stale manager (add(["cat"]) then
remove([0])) exports successfully, but load_from_byte on the exported bytes
raises ZeroDivisionError — the constructor rebuilds the ranking model from
the stored documents and tombstones, all of which are tombstoned — so no
reconstructed manager exists and the round trip fails for this initialized
manager. -/
theorem bm25_export_load_raises :
    BM25Reachable bm25StaleOne ∧
    ∃ d : BM25ExportData, bm25Export bm25StaleOne = Except.ok d ∧
      bm25LoadFromByte d = Except.error "ZeroDivisionError: division by zero" := by
  refine ⟨bm25StaleOne_reachable, ?_⟩
  rw [bm25StaleOne_eq]
  exact ⟨⟨[bm25Tokenize "cat"], ["cat"], insert 0 ∅, 3 / 2, 3 / 4⟩, rfl, rfl⟩

/-- C9 amended: for every manager whose caches are consistent with its
documents and tombstones (the state established by every successful rebuild;
a mutation whose rebuild raised leaves a stale manager whose export does not
round-trip, see the counterexample), export succeeds and load_from_byte on
the exported data reconstructs a manager equal to the original — same
position ids, tombstone set and hyperparameters — and every search on the
reconstructed manager returns exactly the original's ids and scores. -/
theorem bm25_export_roundtrip (m : BM25State) (hWF : BM25WF m) :
    ∃ d : BM25ExportData, bm25Export m = Except.ok d ∧
      bm25LoadFromByte d = Except.ok m ∧
      ∀ m2 : BM25State, bm25LoadFromByte d = Except.ok m2 →
        ∀ q k, bm25Search m2 q k = bm25Search m q k := by
  obtain ⟨hidx, hact, hok⟩ := hWF
  cases m with
  | mk docs flags k1 b idx act =>
    simp only at hidx hact hok
    subst hidx
    subst hact
    refine ⟨⟨tokenizedActive docs flags, docs, flags, k1, b⟩, rfl, ?_, ?_⟩
    · unfold bm25LoadFromByte
      dsimp only
      rw [updateIndex_eq_ok _ _ _ _ _ _ hok]
    · intro m2 h2 q k
      unfold bm25LoadFromByte at h2
      dsimp only at h2
      rw [updateIndex_eq_ok _ _ _ _ _ _ hok] at h2
      injection h2 with h3
      rw [← h3]

/-- C9 witness: the round-trip theorem applied to a concrete well-formed
one-document manager. -/
theorem bm25_export_roundtrip_witness :
    ∃ d : BM25ExportData, bm25Export bm25OneDoc = Except.ok d ∧
      bm25LoadFromByte d = Except.ok bm25OneDoc ∧
      ∀ m2 : BM25State, bm25LoadFromByte d = Except.ok m2 →
        ∀ q k, bm25Search m2 q k = bm25Search bm25OneDoc q k :=
  bm25_export_roundtrip bm25OneDoc ⟨rfl, rfl, rfl⟩
